import Mathlib

/-!
Shallow embedding of `src/advanced-vector/vector.h`: a dynamic array
(`Vector<T>`) built on a raw-memory owner (`RawMemory<T>`).

The element type `T` is modelled by an arbitrary type `α`.  A vector state
is modelled by the list of its live elements (slots `[0, size_)` of the
buffer) together with the capacity of its `RawMemory` block.

Two layers of modelling are used:

* plain functional definitions (`Reserve`, `EmplaceBack`, `Emplace`,
  `Erase`, ...) give the effect of each operation on the success path,
  with moves and copies both transferring the element value;

* fine-grained "run" definitions (`reserveRun`, `emplaceBackRun`,
  `insertReallocRun`, `emplaceInPlaceRun`) additionally model failure:
  an allocation that throws, an element constructor that throws, and a
  copy constructor that throws during relocation.  They track the
  partially filled new block explicitly (a list of optional slots), so
  that the objects whose destructors never run before the raw block is
  freed — leaked objects — are derived from the block state rather than
  asserted.
-/

namespace AdvancedVector

variable {α : Type}

/-- Compile-time capabilities of the element type `T` that the source
dispatches on: `std::is_nothrow_move_constructible_v<T>` and
`std::is_copy_constructible_v<T>`. -/
structure Traits where
  nothrowMove : Bool
  copyConstructible : Bool
  deriving DecidableEq

/-- State of a `Vector<T>` (vector.h:91): `data` are the live elements in
slots `[0, size_)` of the buffer, `cap` is `data_.Capacity()`. -/
structure Vec (α : Type) where
  data : List α
  cap : Nat
  deriving DecidableEq

/-- Models `Size()` (vector.h:188): the number of live elements. -/
def Vec.size (v : Vec α) : Nat := v.data.length

/-- Models `std::uninitialized_copy_n(src + s, c, dst)` /
`std::uninitialized_move_n(src + s, c, dst)` on the success path: the `c`
element values starting at slot `s` of the source. -/
def copyNFrom (d : List α) (s c : Nat) : List α := (d.drop s).take c

/-- Models `Reserve(new_capacity)` (vector.h:204) on the success path:
no-op when `new_capacity <= data_.Capacity()`, otherwise a new block of
exactly `new_capacity` slots receives all `size_` elements (by move or
copy construction, both transferring values). -/
def Reserve (v : Vec α) (newCapacity : Nat) : Vec α :=
  if newCapacity ≤ v.cap then v
  else ⟨copyNFrom v.data 0 v.data.length, newCapacity⟩

/-- Models `Resize(new_size)` (vector.h:221): shrinking destroys the tail
`[new_size, size_)`; growing reserves then value-initializes slots
`[size_, new_size)` (a value-initialized `T()` is modelled by `default`). -/
def Resize [Inhabited α] (v : Vec α) (newSize : Nat) : Vec α :=
  if newSize ≤ v.size then ⟨v.data.take newSize, v.cap⟩
  else ⟨(Reserve v newSize).data ++ List.replicate (newSize - v.size) default,
        (Reserve v newSize).cap⟩

/-- Models `EmplaceBack(args...)` (vector.h:232) on the success path.
When `size_ == Capacity()` a block of `size_ == 0 ? 1 : size_ * 2` slots
is allocated, the new element is constructed at slot `size_`, and the old
elements are relocated into slots `[0, size_)`; otherwise the element is
constructed in place at slot `size_`.  Returns the new state and the slot
of the returned reference (`data_[size_++]`, i.e. the old `size_`). -/
def EmplaceBack (v : Vec α) (x : α) : Vec α × Nat :=
  if v.data.length = v.cap then
    (⟨copyNFrom v.data 0 v.data.length ++ [x],
      if v.data.length = 0 then 1 else v.data.length * 2⟩, v.data.length)
  else
    (⟨v.data ++ [x], v.cap⟩, v.data.length)

/-- Models `PopBack()` (vector.h:261): destroys the element at slot
`size_ - 1` and decrements `size_`.  Capacity is untouched. -/
def PopBack (v : Vec α) : Vec α := ⟨v.data.dropLast, v.cap⟩

/-- Semantics of `std::move_backward(first, last, d_last)` on one buffer:
slots `[d_last - (last - first), d_last)` receive the values of slots
`[first, last)`; slots before the destination range keep their (possibly
moved-from, here value-preserving) contents, slots from `d_last` on are
untouched. -/
def moveBackwardList (d : List α) (first last dlast : Nat) : List α :=
  d.take (dlast - (last - first)) ++ (d.drop first).take (last - first) ++ d.drop dlast

/-- Semantics of `std::move(first, last, d_first)` on one buffer (forward
left shift): slots `[d_first, d_first + (last - first))` receive the
values of slots `[first, last)`; the rest are untouched. -/
def moveForwardList (d : List α) (first last dfirst : Nat) : List α :=
  d.take dfirst ++ (d.drop first).take (last - first) ++ d.drop (dfirst + (last - first))

/-- Models `Erase(pos)` (vector.h:299) at offset `k`: shifts slots
`[k+1, size_)` one to the left via `std::move`, destroys the vacated last
slot, decrements `size_`.  Returns the new state and the offset of the
returned iterator (`begin() + offset`). -/
def Erase (v : Vec α) (k : Nat) : Vec α × Nat :=
  let d1 := moveForwardList v.data (k + 1) v.data.length k
  (⟨d1.take (v.data.length - 1), v.cap⟩, k)

/-- Models `InsertWithoutReallocating(pos, offset, args...)` (vector.h:332)
on the success path, acting on the live elements `d`.  When `pos != cend()`:
stage `T temp(args...)`; move-construct `data_[size_-1]` into the end slot;
`std::move_backward(begin()+offset, end()-1, end())`; move-assign the staged
temporary into slot `offset`.  When `pos == cend()`: construct at the end. -/
def insertWithoutRealloc [Inhabited α] (d : List α) (k : Nat) (x : α) : List α :=
  if k ≠ d.length then
    let temp := x
    let d1 := d ++ [d.getD (d.length - 1) default]
    let d2 := moveBackwardList d1 k (d.length - 1) d.length
    d2.set k temp
  else
    d ++ [x]

/-- Models `Emplace(pos, args...)` (vector.h:267) at offset `k` on the
success path.  When `size_ == Capacity()`, `InsertAndReallocate`
(vector.h:312) constructs the new element at slot `k` of the new block and
relocates the old slots `[0, k)` to `[0, k)` and `[k, size_)` to
`[k+1, size_+1)`.  Otherwise `InsertWithoutReallocating` runs in place.
Returns the new state and the offset of the returned iterator
(`begin() + offset`). -/
def Emplace [Inhabited α] (v : Vec α) (k : Nat) (x : α) : Vec α × Nat :=
  if v.data.length = v.cap then
    (⟨copyNFrom v.data 0 k ++ x :: copyNFrom v.data k (v.data.length - k),
      if v.data.length = 0 then 1 else v.data.length * 2⟩, k)
  else
    (⟨insertWithoutRealloc v.data k x, v.cap⟩, k)

/-! Fine-grained failure-aware model of the three reallocating sites.

A new `RawMemory` block is a list of `capacity` optional slots: `some x`
is a constructed object with value `x`, `none` is raw memory.  Failure
sources, matching the failure kinds of the specification: the allocation
in `RawMemory(capacity)` may throw (`allocOk = false`), constructing the
new element from the arguments may throw (`nv = .error ()`), and
copy-constructing an element `a` during relocation throws exactly when
`cok a = false`.  Move relocation is taken only under the source's
nothrow-move (or move-only) dispatch and is modelled as non-throwing. -/

/-- A raw block of `length` slots; `some x` is a constructed object. -/
abbrev Block (α : Type) := List (Option α)

/-- Objects whose destructors never run when the block's raw memory is
freed: `RawMemory::~RawMemory` only calls `operator delete`, so every
still-constructed slot of the block leaks its object. -/
def blockLeaks (b : Block α) : List α := b.filterMap id

/-- Construct the values of `src` into consecutive slots of `b` starting
at slot `d` (the effect of a completed `uninitialized_copy_n` /
`uninitialized_move_n` / sequence of placement news). -/
def writeSeq : Block α → Nat → List α → Block α
  | b, _, [] => b
  | b, d, x :: xs => writeSeq (b.set d (some x)) (d + 1) xs

/-- Models `std::uninitialized_copy_n(src, src.length, b + d)` with
throwing copies: walks `src`, placement-constructing each value, and if a
copy throws (`cok a = false`) it destroys the objects it has itself
constructed, leaving the block as it was on entry, and propagates the
failure (`.error` carries the block after this cleanup). -/
def copyIntoBlock (cok : α → Bool) : List α → Nat → Block α → Except (Block α) (Block α)
  | [], _, b => .ok b
  | x :: xs, d, b =>
    if cok x then
      match copyIntoBlock cok xs (d + 1) (b.set d (some x)) with
      | .ok b2 => .ok b2
      | .error _ => .error b
    else
      .error b

/-- The live elements read back from the first `n` slots of a block. -/
def blockRead (b : Block α) (n : Nat) : List α := (b.take n).filterMap id

/-- Outcome of running one reallocating operation: whether it returned
normally, the resulting vector state (the original state if it threw),
the objects leaked (constructed, never destroyed, their raw memory
freed), and which relocation ran (`some true` = by move construction,
`some false` = by copy construction, `none` = relocation never started). -/
structure RunResult (α : Type) where
  ok : Bool
  vec : Vec α
  leaked : List α
  relocKind : Option Bool
  deriving DecidableEq

/-- Relocation dispatch at `Reserve` (vector.h:211):
`std::is_nothrow_move_constructible_v<T> || !std::is_copy_constructible_v<T>`. -/
def reserveRelocByMove (tr : Traits) : Bool :=
  tr.nothrowMove || !tr.copyConstructible

/-- Relocation dispatch at `EmplaceBack` (vector.h:240):
`std::is_nothrow_move_constructible_v<T> || !std::is_copy_constructible_v<T>`. -/
def emplaceBackRelocByMove (tr : Traits) : Bool :=
  tr.nothrowMove || !tr.copyConstructible

/-- Relocation dispatch at `InsertAndReallocate` (vector.h:317):
`std::is_nothrow_move_constructible_v<T> || !std::is_copy_constructible_v<T>`. -/
def insertReallocRelocByMove (tr : Traits) : Bool :=
  tr.nothrowMove || !tr.copyConstructible

/-- Failure-aware run of `Reserve(new_capacity)` (vector.h:204). -/
def reserveRun (tr : Traits) (allocOk : Bool) (cok : α → Bool)
    (v : Vec α) (newCapacity : Nat) : RunResult α :=
  if newCapacity ≤ v.cap then
    ⟨true, v, [], none⟩
  else if allocOk = false then
    -- RawMemory<T> new_data(new_capacity): Allocate throws, nothing was built
    ⟨false, v, [], none⟩
  else
    let b0 : Block α := List.replicate newCapacity none
    if reserveRelocByMove tr then
      -- uninitialized_move_n: non-throwing under the dispatch condition
      ⟨true, ⟨blockRead (writeSeq b0 0 v.data) v.data.length, newCapacity⟩, [], some true⟩
    else
      match copyIntoBlock cok v.data 0 b0 with
      | .error bE =>
        -- copy threw: uninitialized_copy_n destroyed its constructions,
        -- new_data's destructor frees the raw block
        ⟨false, v, blockLeaks bE, some false⟩
      | .ok b1 =>
        -- destroy_n(old); data_.Swap(new_data); old raw block freed empty
        ⟨true, ⟨blockRead b1 v.data.length, newCapacity⟩, [], some false⟩

/-- Failure-aware run of `EmplaceBack(args...)` (vector.h:232).  In the
growth branch the new element is constructed at slot `size_` of the new
block BEFORE relocation; if relocation then throws, `uninitialized_copy_n`
destroys only its own constructions and `new_data`'s destructor frees the
raw memory without running the new element's destructor. -/
def emplaceBackRun (tr : Traits) (allocOk : Bool) (cok : α → Bool)
    (nv : Except Unit α) (v : Vec α) : RunResult α :=
  if v.data.length = v.cap then
    let newCap := if v.data.length = 0 then 1 else v.data.length * 2
    if allocOk = false then
      ⟨false, v, [], none⟩
    else
      let b0 : Block α := List.replicate newCap none
      match nv with
      | .error _ =>
        -- new (new_data + size_) T(args...) threw; block still empty
        ⟨false, v, blockLeaks b0, none⟩
      | .ok x =>
        let b1 := b0.set v.data.length (some x)
        if emplaceBackRelocByMove tr then
          ⟨true, ⟨blockRead (writeSeq b1 0 v.data) (v.data.length + 1), newCap⟩,
            [], some true⟩
        else
          match copyIntoBlock cok v.data 0 b1 with
          | .error bE => ⟨false, v, blockLeaks bE, some false⟩
          | .ok b2 =>
            ⟨true, ⟨blockRead b2 (v.data.length + 1), newCap⟩, [], some false⟩
  else
    match nv with
    | .error _ =>
      -- new (data_ + size_) T(args...) threw; nothing was constructed
      ⟨false, v, [], none⟩
    | .ok x =>
      ⟨true, ⟨v.data ++ [x], v.cap⟩, [], none⟩

/-- Failure-aware run of `InsertAndReallocate(offset, args...)`
(vector.h:312): new element at slot `offset` of the new block, then the
old slots `[0, offset)` are relocated to `[0, offset)` (first call) and
`[offset, size_)` to `[offset+1, size_+1)` (second call).  If the second
copy call throws, it destroys only its own constructions: the prefix
placed by the completed first call and the new element stay constructed
in the block when its raw memory is freed. -/
def insertReallocRun (tr : Traits) (allocOk : Bool) (cok : α → Bool)
    (nv : Except Unit α) (v : Vec α) (off : Nat) : RunResult α :=
  let newCap := if v.data.length = 0 then 1 else v.data.length * 2
  if allocOk = false then
    ⟨false, v, [], none⟩
  else
    let b0 : Block α := List.replicate newCap none
    match nv with
    | .error _ =>
      ⟨false, v, blockLeaks b0, none⟩
    | .ok x =>
      let b1 := b0.set off (some x)
      if insertReallocRelocByMove tr then
        ⟨true,
          ⟨blockRead (writeSeq (writeSeq b1 0 (v.data.take off)) (off + 1)
              (v.data.drop off)) (v.data.length + 1), newCap⟩,
          [], some true⟩
      else
        match copyIntoBlock cok (v.data.take off) 0 b1 with
        | .error bE => ⟨false, v, blockLeaks bE, some false⟩
        | .ok b2 =>
          match copyIntoBlock cok (v.data.drop off) (off + 1) b2 with
          | .error bE2 => ⟨false, v, blockLeaks bE2, some false⟩
          | .ok b3 =>
            ⟨true, ⟨blockRead b3 (v.data.length + 1), newCap⟩, [], some false⟩

/-! Failure-aware model of the in-place `Emplace` branch (vector.h:276):

    try { InsertWithoutReallocating(pos, offset, args...); }
    catch (...) { operator delete (end()); throw; }

`end()` is `data_ + size_`: the pointer at offset `size_` from the buffer
base.  The model records the offset passed to `operator delete` in the
catch handler, to be judged against the validity rule for `operator
delete`. -/

/-- Outcome of the in-place `Emplace` branch: normal return flag, the
vector state, and, when the catch handler ran, the offset from the buffer
base of the pointer it passed to `operator delete`. -/
structure InPlaceResult (α : Type) where
  ok : Bool
  vec : Vec α
  deletedOffset : Option Nat
  deriving DecidableEq

/-- Whether a call `operator delete(buffer_ + off)`, made while the vector
still owns its buffer of `bufCap` slots, corrupts the heap.  `operator
delete` is valid only on a null pointer or the exact pointer of a live
allocation that is being given up: with `off ≠ 0` the pointer is interior
to the buffer (never a value returned by the allocator) — undefined
behavior; with `off = 0` and a non-empty buffer it frees the still-owned
buffer, which `~RawMemory` will free again — a double free. -/
def deleteCallFaults (bufCap off : Nat) : Bool :=
  if off = 0 then bufCap != 0 else true

/-- Failure-aware run of the in-place branch of `Emplace` (vector.h:276),
with `constructOk = false` meaning the construction of the staged
temporary `T temp(args...)` (or, at the end position, of the element
itself) throws. -/
def emplaceInPlaceRun [Inhabited α] (constructOk : Bool) (x : α)
    (v : Vec α) (off : Nat) : InPlaceResult α :=
  if off ≠ v.data.length then
    if constructOk then
      ⟨true, ⟨insertWithoutRealloc v.data off x, v.cap⟩, none⟩
    else
      -- T temp(args...) threw before any write to the array;
      -- the catch handler executes operator delete (end())
      ⟨false, v, some v.data.length⟩
  else
    if constructOk then
      ⟨true, ⟨v.data ++ [x], v.cap⟩, none⟩
    else
      ⟨false, v, some v.data.length⟩

/-! Debug assertions, transcribed as the Boolean conditions asserted. -/

/-- Condition of `assert(index < capacity_)` in `RawMemory::operator[]`
(vector.h:52), reached by `Vector::operator[]` (vector.h:196). -/
def rawMemoryIndexAssert (capacity index : Nat) : Bool :=
  decide (index < capacity)

/-- Condition of `assert(pos >= cbegin() && pos <= cend())` in `Erase`
(vector.h:300), expressed on the offset `off = pos - cbegin()`. -/
def eraseAssert (size off : Nat) : Bool :=
  decide (off ≤ size)

/-- Condition of `assert(size_ != 0)` in `PopBack` (vector.h:262). -/
def popBackAssert (size : Nat) : Bool :=
  decide (size ≠ 0)

/-! Assignment, swap and copy construction. -/

/-- Models `operator=(const Vector&)` (vector.h:141).  `self` is the
pointer test `this == &rhs`; when it holds, `dst` and `src` are the same
object and nothing happens.  Otherwise: if `rhs.size_ > data_.Capacity()`
a copy of `rhs` is built and swapped in (capacity becomes `rhs.size_`);
else the first `min(size_, rhs.size_)` slots are copy-assigned, and the
tail is either destroyed or copy-constructed. -/
def copyAssignRun (self : Bool) (dst src : Vec α) : Vec α :=
  if self then dst
  else if src.data.length > dst.cap then
    ⟨copyNFrom src.data 0 src.data.length, src.data.length⟩
  else
    let m := min dst.data.length src.data.length
    let d1 := src.data.take m ++ dst.data.drop m
    if src.data.length ≤ dst.data.length then
      ⟨d1.take src.data.length, dst.cap⟩
    else
      ⟨d1 ++ copyNFrom src.data dst.data.length (src.data.length - dst.data.length), dst.cap⟩

/-- Models `operator=(Vector&&)` (vector.h:168): when `this != &rhs` the
block and size are taken from `rhs`, which is left empty; when
`this == &rhs` (self move-assignment) nothing happens.  Returns the
states of `(dst, src)` after the call. -/
def moveAssignRun (self : Bool) (dst src : Vec α) : Vec α × Vec α :=
  if self then (dst, src)
  else (⟨src.data, src.cap⟩, ⟨[], 0⟩)

/-- Models `Swap(other)` (vector.h:177): when `this != &other` the blocks
and sizes are exchanged; self-swap does nothing. -/
def swapRun (self : Bool) (a b : Vec α) : Vec α × Vec α :=
  if self then (a, b)
  else (⟨b.data, b.cap⟩, ⟨a.data, a.cap⟩)

/-- Models `Vector(const Vector& other)` (vector.h:129): allocates a block
of exactly `other.size_` slots and copy-constructs the `other.size_`
elements into it. -/
def copyConstruct (v : Vec α) : Vec α :=
  ⟨copyNFrom v.data 0 v.data.length, v.data.length⟩

/-! Sequences of `PushBack` / `PopBack` from the empty vector. -/

/-- One operation of a push/pop sequence (`PushBack` forwards to
`EmplaceBack`, vector.h:257). -/
inductive Op (α : Type) where
  | push : α → Op α
  | pop : Op α
  deriving DecidableEq

/-- Number of pushes in a sequence. -/
def countPush : List (Op α) → Nat
  | [] => 0
  | .push _ :: r => countPush r + 1
  | .pop :: r => countPush r

/-- Number of pops in a sequence. -/
def countPop : List (Op α) → Nat
  | [] => 0
  | .push _ :: r => countPop r
  | .pop :: r => countPop r + 1

/-- A sequence respects the `PopBack` caller contract (`size_ != 0`)
when started at a vector of size `s`. -/
def wellFormed : List (Op α) → Nat → Bool
  | [], _ => true
  | .push _ :: r, s => wellFormed r (s + 1)
  | .pop :: r, s => decide (s ≠ 0) && wellFormed r (s - 1)

/-- Run a push/pop sequence on a vector state. -/
def runOps : List (Op α) → Vec α → Vec α
  | [], v => v
  | .push x :: r, v => runOps r (EmplaceBack v x).1
  | .pop :: r, v => runOps r (PopBack v)

/-- The surviving pushed values, in push order: the specification-side
fold of a push/pop sequence over a plain list. -/
def specFold : List (Op α) → List α → List α
  | [], acc => acc
  | .push x :: r, acc => specFold r (acc ++ [x])
  | .pop :: r, acc => specFold r acc.dropLast

/-- The vector obtained by `n` consecutive `PushBack`s from the empty,
default-constructed vector (`data_` empty, capacity 0). -/
def pushN : Nat → Vec Unit
  | 0 => ⟨[], 0⟩
  | n + 1 => (EmplaceBack (pushN n) ()).1

/-- Smallest value of the doubling sequence 1, 2, 4, 8, ... that is at
least `n`: the capacity the specification predicts after `n` consecutive
pushes from empty.  This definition follows the specification's words
(the sequence member `2 ^ j` with the least `j` such that `n ≤ 2 ^ j`),
to be compared with the capacity the code model actually produces. -/
def specSmallestDoublingCapacity (n : Nat) : Nat := 2 ^ Nat.clog 2 n

/-! Helper lemmas. -/

theorem copyNFrom_zero_length (d : List α) : copyNFrom d 0 d.length = d := by
  simp [copyNFrom]

theorem EmplaceBack_data (v : Vec α) (x : α) :
    (EmplaceBack v x).1.data = v.data ++ [x] := by
  unfold EmplaceBack
  split <;> simp [copyNFrom]

theorem EmplaceBack_ret (v : Vec α) (x : α) :
    (EmplaceBack v x).2 = v.data.length := by
  unfold EmplaceBack
  split <;> rfl

theorem take_pred_append_getD [Inhabited α] (l : List α) (hl : l ≠ []) :
    l.take (l.length - 1) ++ [l.getD (l.length - 1) default] = l := by
  have h1 := List.dropLast_append_getLast hl
  rw [List.dropLast_eq_take] at h1
  have h2 : l.getD (l.length - 1) default = l.getLast hl := by
    have hlen : l.length - 1 < l.length := by
      cases l with
      | nil => exact absurd rfl hl
      | cons a t => simp
    rw [List.getLast_eq_getElem]
    simp [List.getElem?_eq_getElem hlen]
  rw [h2, h1]

theorem insertWithoutRealloc_eq [Inhabited α] (d : List α) (k : Nat) (x : α)
    (hk : k ≤ d.length) :
    insertWithoutRealloc d k x = d.take k ++ x :: d.drop k := by
  rcases Nat.lt_or_ge k d.length with h | h
  · have hne : k ≠ d.length := Nat.ne_of_lt h
    have hn1 : d.length - (d.length - 1 - k) = k + 1 := by omega
    unfold insertWithoutRealloc moveBackwardList
    rw [if_pos hne]
    dsimp only
    rw [hn1]
    have e1 : (d ++ [d.getD (d.length - 1) default]).take (k + 1) = d.take (k + 1) :=
      List.take_append_of_le_length (by omega)
    have e2 : (d ++ [d.getD (d.length - 1) default]).drop k
        = d.drop k ++ [d.getD (d.length - 1) default] :=
      List.drop_append_of_le_length (by omega)
    have e3 : (d ++ [d.getD (d.length - 1) default]).drop d.length
        = [d.getD (d.length - 1) default] := by
      rw [List.drop_append_of_le_length (Nat.le_refl _)]
      simp
    rw [e1, e2, e3]
    have e4 : (d.drop k ++ [d.getD (d.length - 1) default]).take (d.length - 1 - k)
        = (d.drop k).take (d.length - 1 - k) :=
      List.take_append_of_le_length (by simp; omega)
    rw [e4]
    have hne2 : d.drop k ≠ [] := by
      intro hc
      have := congrArg List.length hc
      simp at this
      omega
    have key : (d.drop k).take (d.length - 1 - k) ++ [d.getD (d.length - 1) default]
        = d.drop k := by
      have h5 := take_pred_append_getD (d.drop k) hne2
      have h6 : (d.drop k).length - 1 = d.length - 1 - k := by simp; omega
      have h7 : (d.drop k).getD ((d.drop k).length - 1) default
          = d.getD (d.length - 1) default := by
        have h8 : (d.drop k)[(d.drop k).length - 1]? = d[d.length - 1]? := by
          rw [List.getElem?_drop]
          have : k + ((d.drop k).length - 1) = d.length - 1 := by simp; omega
          rw [this]
        simp only [List.getD_eq_getElem?_getD, h8]
      rw [h7, h6] at h5
      exact h5
    rw [List.set_append_left _ _ (by simp; try omega), List.set_append_left _ _ (by simp; try omega)]
    have e5 : (d.take (k + 1)).set k x = d.take k ++ [x] := by
      rw [List.set_eq_take_cons_drop _ (by simp; omega)]
      rw [List.take_take, List.drop_of_length_le (by simp)]
      simp [Nat.min_def]
    rw [e5]
    have assoc1 : ((d.take k ++ [x]) ++ (d.drop k).take (d.length - 1 - k))
          ++ [d.getD (d.length - 1) default]
        = d.take k ++ ([x] ++ ((d.drop k).take (d.length - 1 - k)
          ++ [d.getD (d.length - 1) default])) := by
      simp only [List.append_assoc]
    rw [assoc1, key]
    simp
  · have hk' : k = d.length := Nat.le_antisymm hk h
    subst hk'
    simp [insertWithoutRealloc]

theorem runOps_data_eq : ∀ (ops : List (Op α)) (v : Vec α),
    wellFormed ops v.data.length = true → (runOps ops v).data = specFold ops v.data := by
  intro ops
  induction ops with
  | nil => intro v _; rfl
  | cons op r ih =>
    intro v h
    cases op with
    | push x =>
      show (runOps r (EmplaceBack v x).1).data = specFold r (v.data ++ [x])
      rw [← EmplaceBack_data v x]
      exact ih _ (by rw [EmplaceBack_data]; simpa [wellFormed] using h)
    | pop =>
      show (runOps r (PopBack v)).data = specFold r v.data.dropLast
      simp only [wellFormed, Bool.and_eq_true, decide_eq_true_eq] at h
      exact ih (PopBack v) (by simp [PopBack]; exact h.2)

theorem specFold_length_eq : ∀ (ops : List (Op α)) (acc : List α),
    wellFormed ops acc.length = true →
    (specFold ops acc).length + countPop ops = acc.length + countPush ops := by
  intro ops
  induction ops with
  | nil => intro acc _; simp [specFold, countPush, countPop]
  | cons op r ih =>
    intro acc h
    cases op with
    | push x =>
      have h2 := ih (acc ++ [x]) (by simpa [wellFormed] using h)
      simp only [specFold, countPush, countPop]
      simp at h2
      omega
    | pop =>
      simp only [wellFormed, Bool.and_eq_true, decide_eq_true_eq] at h
      have h2 := ih acc.dropLast (by simp; exact h.2)
      simp only [specFold, countPush, countPop]
      simp at h2
      omega

theorem pushN_length : ∀ n, (pushN n).data.length = n := by
  intro n
  induction n with
  | zero => rfl
  | succ n ih =>
    show ((EmplaceBack (pushN n) ()).1).data.length = n + 1
    rw [EmplaceBack_data]
    simp [ih]

theorem pushN_cap : ∀ n, (pushN (n + 1)).cap = 2 ^ Nat.clog 2 (n + 1) := by
  intro n
  induction n with
  | zero =>
    show (EmplaceBack (pushN 0) ()).1.cap = 2 ^ Nat.clog 2 1
    rw [Nat.clog_one_right]
    rfl
  | succ n ih =>
    have hsz : (pushN (n + 1)).data.length = n + 1 := pushN_length (n + 1)
    have hle : n + 1 ≤ 2 ^ Nat.clog 2 (n + 1) := Nat.le_pow_clog (by norm_num) (n + 1)
    show (EmplaceBack (pushN (n + 1)) ()).1.cap = 2 ^ Nat.clog 2 (n + 1 + 1)
    unfold EmplaceBack
    by_cases hcap : (pushN (n + 1)).data.length = (pushN (n + 1)).cap
    · rw [if_pos hcap]
      dsimp only
      rw [hsz, if_neg (by omega)]
      have hpow : n + 1 = 2 ^ Nat.clog 2 (n + 1) := by
        rw [← ih, ← hcap, hsz]
      have hc : Nat.clog 2 (n + 1 + 1) = Nat.clog 2 (n + 1) + 1 := by
        have h1 : Nat.clog 2 (n + 1 + 1) ≤ Nat.clog 2 (n + 1) + 1 := by
          rw [← Nat.le_pow_iff_clog_le (by norm_num), Nat.pow_succ]
          omega
        have h2 : ¬ Nat.clog 2 (n + 1 + 1) ≤ Nat.clog 2 (n + 1) := by
          rw [← Nat.le_pow_iff_clog_le (by norm_num)]
          omega
        omega
      rw [hc, Nat.pow_succ]
      omega
    · rw [if_neg hcap]
      dsimp only
      have hlt : n + 1 < 2 ^ Nat.clog 2 (n + 1) := by
        rcases Nat.lt_or_ge (n + 1) (2 ^ Nat.clog 2 (n + 1)) with h | h
        · exact h
        · exact absurd (by rw [hsz, ih]; omega) hcap
      have hc : Nat.clog 2 (n + 1 + 1) = Nat.clog 2 (n + 1) := by
        have h1 : Nat.clog 2 (n + 1 + 1) ≤ Nat.clog 2 (n + 1) := by
          rw [← Nat.le_pow_iff_clog_le (by norm_num)]
          omega
        have h2 : Nat.clog 2 (n + 1) ≤ Nat.clog 2 (n + 1 + 1) :=
          Nat.clog_mono_right 2 (by omega)
        omega
      rw [hc]
      exact ih

/-! Claim theorems. -/

/-- C3, counterexample: the claim says indexing with `i >= count` fails the
debug check even when `i < capacity`, and that `erase(end())` fails the
debug check.  Both pass: with capacity 4 and count 2, the index 3 (which is
`>= count`) satisfies `assert(index < capacity_)`, and with size 2 the
offset 2 (i.e. `pos == end()`) satisfies `assert(pos >= cbegin() && pos <=
cend())`. -/
theorem contract_checks_counterexample :
    rawMemoryIndexAssert 4 3 = true ∧ eraseAssert 2 2 = true := by
  decide

/-- C3, amended: indexing is checked against the capacity, not the element
count, so `i >= count` passes the debug check whenever `i < capacity`;
`Erase`'s assertion accepts every offset up to and including `size` (so
`position == end()` passes); only `PopBack` on an empty array fails its
debug check (`assert(size_ != 0)`). -/
theorem contract_checks_amended :
    (∀ capacity index : Nat, rawMemoryIndexAssert capacity index = true ↔ index < capacity) ∧
    (∀ size off : Nat, eraseAssert size off = true ↔ off ≤ size) ∧
    (∀ size : Nat, popBackAssert size = false ↔ size = 0) := by
  refine ⟨fun c i => ?_, fun s o => ?_, fun s => ?_⟩ <;>
    simp [rawMemoryIndexAssert, eraseAssert, popBackAssert]

/-- C5: inserting a value at any offset `k ≤ n` into an array of size `n`
(whether by the reallocation path or the in-place path — the two branches
of `Emplace`) yields size `n + 1`, the new value at position `k`, the old
elements `[0, k)` and `[k, n)` in order around it, and a returned iterator
denoting offset `k`. -/
theorem emplace_inserts_at_offset [Inhabited α] (v : Vec α) (k : Nat) (x : α)
    (hk : k ≤ v.data.length) :
    (Emplace v k x).1.data = v.data.take k ++ x :: v.data.drop k ∧
    (Emplace v k x).1.size = v.size + 1 ∧
    (Emplace v k x).2 = k := by
  have e2 : copyNFrom v.data k (v.data.length - k) = v.data.drop k := by
    unfold copyNFrom
    exact List.take_of_length_le (by simp)
  have hdata : (Emplace v k x).1.data = v.data.take k ++ x :: v.data.drop k := by
    unfold Emplace
    split
    · dsimp only
      rw [e2]
      simp [copyNFrom]
    · dsimp only
      exact insertWithoutRealloc_eq v.data k x hk
  refine ⟨hdata, ?_, ?_⟩
  · show (Emplace v k x).1.data.length = v.data.length + 1
    rw [hdata]
    simp
    omega
  · unfold Emplace
    split <;> rfl

/-- C5, witness: inserting 9 at offset 1 of `[1, 2, 3]` (capacity 4, the
in-place path) gives `[1, 9, 2, 3]` with the iterator at offset 1. -/
theorem emplace_inserts_at_offset_witness :
    1 ≤ (⟨[1, 2, 3], 4⟩ : Vec Nat).data.length ∧
    ((Emplace (⟨[1, 2, 3], 4⟩ : Vec Nat) 1 9).1.data
        = [1, 2, 3].take 1 ++ 9 :: [1, 2, 3].drop 1 ∧
      (Emplace (⟨[1, 2, 3], 4⟩ : Vec Nat) 1 9).1.size
        = (⟨[1, 2, 3], 4⟩ : Vec Nat).size + 1 ∧
      (Emplace (⟨[1, 2, 3], 4⟩ : Vec Nat) 1 9).2 = 1) :=
  ⟨by decide, emplace_inserts_at_offset ⟨[1, 2, 3], 4⟩ 1 9 (by decide)⟩

/-- C6: erasing the element at any offset `k < n` yields size `n - 1`, the
elements before `k` and after `k` in their original relative order, no
reallocation (capacity unchanged), and a returned iterator at offset `k`. -/
theorem erase_removes_at_offset (v : Vec α) (k : Nat) (hk : k < v.data.length) :
    (Erase v k).1.data = v.data.take k ++ v.data.drop (k + 1) ∧
    (Erase v k).1.size = v.size - 1 ∧
    (Erase v k).1.cap = v.cap ∧
    (Erase v k).2 = k := by
  have hdata : (Erase v k).1.data = v.data.take k ++ v.data.drop (k + 1) := by
    unfold Erase moveForwardList
    dsimp only
    have e1 : (v.data.drop (k + 1)).take (v.data.length - (k + 1)) = v.data.drop (k + 1) :=
      List.take_of_length_le (by simp)
    have e2 : k + (v.data.length - (k + 1)) = v.data.length - 1 := by omega
    rw [e1, e2]
    exact List.take_left' (by simp; omega)
  refine ⟨hdata, ?_, rfl, rfl⟩
  show (Erase v k).1.data.length = v.data.length - 1
  rw [hdata]
  simp
  omega

/-- C6, witness: erasing offset 0 of `[9, 2, 3]` (capacity 4) gives
`[2, 3]`, size 2, capacity 4, iterator at offset 0. -/
theorem erase_removes_at_offset_witness :
    0 < (⟨[9, 2, 3], 4⟩ : Vec Nat).data.length ∧
    ((Erase (⟨[9, 2, 3], 4⟩ : Vec Nat) 0).1.data
        = [9, 2, 3].take 0 ++ [9, 2, 3].drop 1 ∧
      (Erase (⟨[9, 2, 3], 4⟩ : Vec Nat) 0).1.size
        = (⟨[9, 2, 3], 4⟩ : Vec Nat).size - 1 ∧
      (Erase (⟨[9, 2, 3], 4⟩ : Vec Nat) 0).1.cap = 4 ∧
      (Erase (⟨[9, 2, 3], 4⟩ : Vec Nat) 0).2 = 0) :=
  ⟨by decide, erase_removes_at_offset ⟨[9, 2, 3], 4⟩ 0 (by decide)⟩

/-- C4: capacity never decreases — `PopBack` and `Erase` leave it
untouched, a shrinking `Resize` keeps the block, `Reserve` with
`new_capacity <= capacity()` is a complete no-op — growth on a full array
allocates exactly `max 1 (2 * count)` slots, and after `N >= 1`
consecutive `PushBack`s from an empty vector the capacity equals the
smallest member of the doubling sequence 1, 2, 4, ... that is `>= N`. -/
theorem capacity_growth_policy [Inhabited α] :
    (∀ v : Vec α, (PopBack v).cap = v.cap) ∧
    (∀ (v : Vec α) (k : Nat), (Erase v k).1.cap = v.cap) ∧
    (∀ (v : Vec α) (m : Nat), m ≤ v.size → (Resize v m).cap = v.cap) ∧
    (∀ (v : Vec α) (c : Nat), c ≤ v.cap → Reserve v c = v) ∧
    (∀ (v : Vec α) (x : α), v.size = v.cap → (EmplaceBack v x).1.cap = max 1 (2 * v.size)) ∧
    (∀ N : Nat, 0 < N → (pushN N).cap = specSmallestDoublingCapacity N) := by
  refine ⟨fun v => rfl, fun v k => rfl, fun v m hm => ?_, fun v c hc => ?_,
    fun v x hvx => ?_, fun N hN => ?_⟩
  · unfold Resize
    rw [if_pos hm]
  · unfold Reserve
    rw [if_pos hc]
  · have hvx' : v.data.length = v.cap := hvx
    unfold EmplaceBack
    rw [if_pos hvx']
    dsimp only
    show (if v.data.length = 0 then 1 else v.data.length * 2) = max 1 (2 * v.data.length)
    split <;> omega
  · cases N with
    | zero => omega
    | succ n => exact pushN_cap n

/-- C4, witness: a shrinking `Resize` of `[1, 2]` (capacity 4) keeps
capacity 4; `Reserve 3` on capacity 4 changes nothing; growing a full
array of 2 elements allocates `max 1 (2 * 2) = 4` slots; after 3 pushes
from empty the capacity is the smallest doubling-sequence member `>= 3`. -/
theorem capacity_growth_policy_witness :
    (1 ≤ (⟨[1, 2], 4⟩ : Vec Nat).size ∧
      (Resize (⟨[1, 2], 4⟩ : Vec Nat) 1).cap = (⟨[1, 2], 4⟩ : Vec Nat).cap) ∧
    (3 ≤ (⟨[1, 2], 4⟩ : Vec Nat).cap ∧
      Reserve (⟨[1, 2], 4⟩ : Vec Nat) 3 = ⟨[1, 2], 4⟩) ∧
    ((⟨[1, 2], 2⟩ : Vec Nat).size = (⟨[1, 2], 2⟩ : Vec Nat).cap ∧
      (EmplaceBack (⟨[1, 2], 2⟩ : Vec Nat) 9).1.cap
        = max 1 (2 * (⟨[1, 2], 2⟩ : Vec Nat).size)) ∧
    (0 < 3 ∧ (pushN 3).cap = specSmallestDoublingCapacity 3) :=
  ⟨⟨by decide, (capacity_growth_policy (α := Nat)).2.2.1 _ _ (by decide)⟩,
   ⟨by decide, (capacity_growth_policy (α := Nat)).2.2.2.1 _ _ (by decide)⟩,
   ⟨by decide, (capacity_growth_policy (α := Nat)).2.2.2.2.1 _ _ (by decide)⟩,
   ⟨by decide, (capacity_growth_policy (α := Nat)).2.2.2.2.2 3 (by decide)⟩⟩

/-- C7: for every push/pop sequence from the empty vector that respects
the `PopBack` contract, the final contents are exactly the surviving
pushed values in push order (so `index(i)` returns the i-th surviving
pushed value) and the size is the number of pushes minus the number of
pops; moreover every `EmplaceBack` grows the count by exactly 1 and
returns a reference to the newly constructed element. -/
theorem push_pop_sequences [Inhabited α] (ops : List (Op α))
    (h : wellFormed ops 0 = true) :
    (runOps ops ⟨[], 0⟩).data = specFold ops [] ∧
    (runOps ops ⟨[], 0⟩).size = countPush ops - countPop ops ∧
    ∀ (v : Vec α) (x : α),
      (EmplaceBack v x).1.size = v.size + 1 ∧
      (EmplaceBack v x).2 = v.size ∧
      (EmplaceBack v x).1.data.getD v.size default = x := by
  have hdata := runOps_data_eq ops (⟨[], 0⟩ : Vec α) (by simpa using h)
  refine ⟨hdata, ?_, ?_⟩
  · have hlen := specFold_length_eq ops ([] : List α) (by simpa using h)
    show (runOps ops ⟨[], 0⟩).data.length = countPush ops - countPop ops
    rw [hdata]
    dsimp only
    simp at hlen
    omega
  · intro v x
    refine ⟨?_, EmplaceBack_ret v x, ?_⟩
    · show (EmplaceBack v x).1.data.length = v.data.length + 1
      rw [EmplaceBack_data]
      simp
    · rw [EmplaceBack_data]
      show (v.data ++ [x]).getD v.data.length default = x
      simp [List.getD_eq_getElem?_getD, List.getElem?_concat_length]

/-- C7, witness: the sequence push 1, push 2, pop, push 3 is well formed,
ends with contents `[1, 3]`, and has size `3 - 1 = 2`. -/
theorem push_pop_sequences_witness :
    wellFormed [Op.push (1 : Nat), Op.push 2, Op.pop, Op.push 3] 0 = true ∧
    ((runOps [Op.push (1 : Nat), Op.push 2, Op.pop, Op.push 3] ⟨[], 0⟩).data
        = specFold [Op.push (1 : Nat), Op.push 2, Op.pop, Op.push 3] [] ∧
      (runOps [Op.push (1 : Nat), Op.push 2, Op.pop, Op.push 3] ⟨[], 0⟩).size
        = countPush [Op.push (1 : Nat), Op.push 2, Op.pop, Op.push 3]
          - countPop [Op.push (1 : Nat), Op.push 2, Op.pop, Op.push 3] ∧
      ∀ (v : Vec Nat) (x : Nat),
        (EmplaceBack v x).1.size = v.size + 1 ∧
        (EmplaceBack v x).2 = v.size ∧
        (EmplaceBack v x).1.data.getD v.size default = x) :=
  ⟨by decide, push_pop_sequences [Op.push 1, Op.push 2, Op.pop, Op.push 3] (by decide)⟩

theorem copyIntoBlock_eq (cok : α → Bool) :
    ∀ (src : List α) (d : Nat) (b : Block α),
      copyIntoBlock cok src d b
        = if ∀ a ∈ src, cok a = true then Except.ok (writeSeq b d src)
          else Except.error b := by
  intro src
  induction src with
  | nil =>
    intro d b
    simp [copyIntoBlock, writeSeq]
  | cons x xs ih =>
    intro d b
    by_cases hx : cok x = true
    · have heq : copyIntoBlock cok (x :: xs) d b
          = (match copyIntoBlock cok xs (d + 1) (b.set d (some x)) with
             | Except.ok b2 => Except.ok b2
             | Except.error _ => Except.error b) := by
        simp [copyIntoBlock, hx]
      rw [heq, ih]
      by_cases hxs : ∀ a ∈ xs, cok a = true
      · rw [if_pos hxs, if_pos ?_]
        · rfl
        · intro a ha
          rcases List.mem_cons.1 ha with rfl | h
          · exact hx
          · exact hxs a h
      · rw [if_neg hxs,
          if_neg (fun hc => hxs (fun a ha => hc a (List.mem_cons_of_mem x ha)))]
    · have hnall : ¬ ∀ a ∈ x :: xs, cok a = true :=
        fun hc => hx (hc x (List.mem_cons_self x xs))
      rw [if_neg hnall]
      simp [copyIntoBlock, hx]

theorem writeSeq_cons (y : Option α) :
    ∀ (p : List α) (b : Block α) (d : Nat),
      writeSeq (y :: b) (d + 1) p = y :: writeSeq b d p := by
  intro p
  induction p with
  | nil => intro b d; rfl
  | cons x xs ih =>
    intro b d
    show writeSeq (y :: b.set d (some x)) (d + 1 + 1) xs
      = y :: writeSeq (b.set d (some x)) (d + 1) xs
    exact ih (b.set d (some x)) (d + 1)

theorem writeSeq_zero : ∀ (p : List α) (b : Block α), p.length ≤ b.length →
    writeSeq b 0 p = p.map some ++ b.drop p.length := by
  intro p
  induction p with
  | nil => intro b h; simp [writeSeq]
  | cons x xs ih =>
    intro b h
    cases b with
    | nil => simp at h
    | cons y b2 =>
      show writeSeq (some x :: b2) (0 + 1) xs
        = (x :: xs).map some ++ (y :: b2).drop (x :: xs).length
      rw [writeSeq_cons (some x) xs b2 0]
      rw [ih b2 (by simpa using h)]
      simp

theorem filterMap_id_map_some (l : List α) : (l.map some).filterMap id = l := by
  induction l <;> simp_all

theorem filterMap_id_replicate_none (n : Nat) :
    (List.replicate n (none : Option α)).filterMap id = [] := by
  induction n with
  | zero => rfl
  | succ n ih =>
    rw [List.replicate_succ, List.filterMap_cons]
    exact ih

theorem blockLeaks_replicate (n : Nat) :
    blockLeaks (List.replicate n (none : Option α)) = [] :=
  filterMap_id_replicate_none n

theorem blockLeaks_set_replicate (n i : Nat) (x : α) (h : i < n) :
    blockLeaks ((List.replicate n (none : Option α)).set i (some x)) = [x] := by
  rw [List.set_eq_take_cons_drop _ (by simpa using h)]
  simp only [blockLeaks, List.take_replicate, List.drop_replicate,
    List.filterMap_append, List.filterMap_cons]
  simp [filterMap_id_replicate_none]

theorem blockLeaks_writeSeq_set (n off : Nat) (x : α) (p : List α)
    (hoff : off < n) (hp : p.length = off) :
    blockLeaks (writeSeq ((List.replicate n (none : Option α)).set off (some x)) 0 p)
      = p ++ [x] := by
  rw [writeSeq_zero p _ (by simp; omega)]
  rw [List.set_eq_take_cons_drop _ (by simpa using hoff)]
  rw [hp]
  have e0 : (List.replicate n (none : Option α)).take off = List.replicate off none := by
    simp [List.take_replicate, Nat.min_eq_left (Nat.le_of_lt hoff)]
  rw [e0]
  rw [List.drop_left' (by simp)]
  simp only [blockLeaks, List.filterMap_append, List.filterMap_cons, List.drop_replicate]
  simp [filterMap_id_map_some, filterMap_id_replicate_none]

/-- C1, counterexample: the claim requires that on a relocation failure
the partially filled new block *including any elements already constructed
in it* is cleaned up.  Growing `[13]` (capacity 1) by `EmplaceBack 7`
with a copy-relocating type whose copy of 13 throws: the new element 7 is
constructed at slot 1 of the new block, the copy of 13 then throws, and
the raw block is freed with the object 7 still constructed — its
destructor never runs, so it is leaked, not cleaned up (the array itself
is left unchanged). -/
theorem realloc_cleanup_counterexample :
    (emplaceBackRun ⟨false, true⟩ true (fun a => decide (a ≠ 13)) (Except.ok 7)
        (⟨[13], 1⟩ : Vec Nat)).ok = false ∧
    (emplaceBackRun ⟨false, true⟩ true (fun a => decide (a ≠ 13)) (Except.ok 7)
        (⟨[13], 1⟩ : Vec Nat)).vec = ⟨[13], 1⟩ ∧
    (emplaceBackRun ⟨false, true⟩ true (fun a => decide (a ≠ 13)) (Except.ok 7)
        (⟨[13], 1⟩ : Vec Nat)).leaked = [7] := by
  decide

/-- C1, amended: at all three reallocating sites a failure (allocation
error, throwing construction of the new element, or throwing element
copy-construction during relocation) before the old block is discarded
leaves the array's size, capacity, and elements exactly as before.  In
`Reserve` the partial new block is fully cleaned up.  In the growth path
of `EmplaceBack` and in `InsertAndReallocate`, the elements constructed by
the failing copy call are destroyed and the raw block freed, but when the
relocation throws, the new element already constructed in the new block is
not destroyed (it leaks), and in the insert path a failure in the second
copy call additionally leaks the prefix placed by the completed first copy
call. -/
theorem realloc_failure_recovery (tr : Traits) (allocOk : Bool) (cok : α → Bool)
    (nv : Except Unit α) (v : Vec α) (newCapacity off : Nat)
    (hoff : off ≤ v.data.length) :
    ((reserveRun tr allocOk cok v newCapacity).ok = false →
      (reserveRun tr allocOk cok v newCapacity).vec = v ∧
      (reserveRun tr allocOk cok v newCapacity).leaked = []) ∧
    ((emplaceBackRun tr allocOk cok nv v).ok = false →
      (emplaceBackRun tr allocOk cok nv v).vec = v ∧
      (emplaceBackRun tr allocOk cok nv v).leaked
        = (if allocOk = true then
            (match nv with | Except.error _ => [] | Except.ok x => [x])
          else [])) ∧
    ((insertReallocRun tr allocOk cok nv v off).ok = false →
      (insertReallocRun tr allocOk cok nv v off).vec = v ∧
      (insertReallocRun tr allocOk cok nv v off).leaked
        = (if allocOk = true then
            (match nv with
             | Except.error _ => []
             | Except.ok x =>
               if ∀ a ∈ v.data.take off, cok a = true then v.data.take off ++ [x]
               else [x])
          else [])) := by
  refine ⟨?_, ?_, ?_⟩
  · -- Reserve
    intro hfail
    unfold reserveRun at hfail ⊢
    by_cases h1 : newCapacity ≤ v.cap
    · rw [if_pos h1] at hfail
      simp at hfail
    rw [if_neg h1] at hfail ⊢
    by_cases h2 : allocOk = false
    · rw [if_pos h2]
      exact ⟨rfl, rfl⟩
    rw [if_neg h2] at hfail ⊢
    dsimp only at hfail ⊢
    by_cases h3 : reserveRelocByMove tr = true
    · rw [if_pos h3] at hfail
      simp at hfail
    rw [if_neg h3] at hfail ⊢
    rw [copyIntoBlock_eq] at hfail ⊢
    by_cases h4 : ∀ a ∈ v.data, cok a = true
    · rw [if_pos h4] at hfail
      simp at hfail
    · rw [if_neg h4]
      exact ⟨rfl, blockLeaks_replicate newCapacity⟩
  · -- EmplaceBack, growth and in-place branches
    intro hfail
    unfold emplaceBackRun at hfail ⊢
    by_cases hsz : v.data.length = v.cap
    · rw [if_pos hsz] at hfail ⊢
      dsimp only at hfail ⊢
      by_cases h2 : allocOk = false
      · rw [if_pos h2] at hfail ⊢
        exact ⟨rfl, by simp [h2]⟩
      · rw [if_neg h2] at hfail ⊢
        have h2t : allocOk = true := by
          cases allocOk with
          | false => exact absurd rfl h2
          | true => rfl
        cases nv with
        | error e =>
          dsimp only at hfail ⊢
          exact ⟨rfl, by simp [h2t, blockLeaks_replicate]⟩
        | ok x =>
          dsimp only at hfail ⊢
          by_cases hm : emplaceBackRelocByMove tr = true
          · rw [if_pos hm] at hfail
            simp at hfail
          rw [if_neg hm] at hfail ⊢
          rw [copyIntoBlock_eq] at hfail ⊢
          by_cases h4 : ∀ a ∈ v.data, cok a = true
          · rw [if_pos h4] at hfail
            simp at hfail
          · rw [if_neg h4]
            dsimp only
            refine ⟨rfl, ?_⟩
            rw [blockLeaks_set_replicate _ _ _ (by split <;> omega)]
            simp [h2t]
    · rw [if_neg hsz] at hfail ⊢
      cases nv with
      | error e =>
        dsimp only at hfail ⊢
        exact ⟨rfl, by cases allocOk <;> simp⟩
      | ok x =>
        dsimp only at hfail
        simp at hfail
  · -- InsertAndReallocate
    intro hfail
    unfold insertReallocRun at hfail ⊢
    dsimp only at hfail ⊢
    by_cases h2 : allocOk = false
    · rw [if_pos h2] at hfail ⊢
      exact ⟨rfl, by simp [h2]⟩
    · rw [if_neg h2] at hfail ⊢
      have h2t : allocOk = true := by
        cases allocOk with
        | false => exact absurd rfl h2
        | true => rfl
      cases nv with
      | error e =>
        dsimp only at hfail ⊢
        exact ⟨rfl, by simp [h2t, blockLeaks_replicate]⟩
      | ok x =>
        dsimp only at hfail ⊢
        by_cases hm : insertReallocRelocByMove tr = true
        · rw [if_pos hm] at hfail
          simp at hfail
        rw [if_neg hm] at hfail ⊢
        rw [copyIntoBlock_eq] at hfail ⊢
        by_cases h4 : ∀ a ∈ v.data.take off, cok a = true
        · rw [if_pos h4] at hfail ⊢
          dsimp only at hfail ⊢
          rw [copyIntoBlock_eq] at hfail ⊢
          by_cases h5 : ∀ a ∈ v.data.drop off, cok a = true
          · rw [if_pos h5] at hfail
            simp at hfail
          · rw [if_neg h5]
            dsimp only
            refine ⟨rfl, ?_⟩
            rw [blockLeaks_writeSeq_set _ _ _ _ (by split <;> omega)
              (by simp [Nat.min_eq_left hoff])]
            simp only [h2t, if_true]
            rw [if_pos h4]
        · rw [if_neg h4]
          dsimp only
          refine ⟨rfl, ?_⟩
          rw [blockLeaks_set_replicate _ _ _ (by split <;> omega)]
          simp only [h2t, if_true]
          rw [if_neg h4]

/-- C1, witness for the amended theorem: the array `[5, 13]` (capacity 2,
so both the emplace-back growth and the insert paths reallocate), with a
type whose copy of 13 throws, reserving to 5 slots or inserting 7 at
offset 1. -/
theorem realloc_failure_recovery_witness :
    1 ≤ (⟨[5, 13], 2⟩ : Vec Nat).data.length ∧
    (((reserveRun ⟨false, true⟩ true (fun a => decide (a ≠ 13))
          (⟨[5, 13], 2⟩ : Vec Nat) 5).ok = false →
        (reserveRun ⟨false, true⟩ true (fun a => decide (a ≠ 13))
          (⟨[5, 13], 2⟩ : Vec Nat) 5).vec = ⟨[5, 13], 2⟩ ∧
        (reserveRun ⟨false, true⟩ true (fun a => decide (a ≠ 13))
          (⟨[5, 13], 2⟩ : Vec Nat) 5).leaked = []) ∧
      ((emplaceBackRun ⟨false, true⟩ true (fun a => decide (a ≠ 13))
          (Except.ok 7) (⟨[5, 13], 2⟩ : Vec Nat)).ok = false →
        (emplaceBackRun ⟨false, true⟩ true (fun a => decide (a ≠ 13))
          (Except.ok 7) (⟨[5, 13], 2⟩ : Vec Nat)).vec = ⟨[5, 13], 2⟩ ∧
        (emplaceBackRun ⟨false, true⟩ true (fun a => decide (a ≠ 13))
          (Except.ok 7) (⟨[5, 13], 2⟩ : Vec Nat)).leaked
          = (if true = true then
              (match (Except.ok 7 : Except Unit Nat) with
               | Except.error _ => [] | Except.ok x => [x])
            else [])) ∧
      ((insertReallocRun ⟨false, true⟩ true (fun a => decide (a ≠ 13))
          (Except.ok 7) (⟨[5, 13], 2⟩ : Vec Nat) 1).ok = false →
        (insertReallocRun ⟨false, true⟩ true (fun a => decide (a ≠ 13))
          (Except.ok 7) (⟨[5, 13], 2⟩ : Vec Nat) 1).vec = ⟨[5, 13], 2⟩ ∧
        (insertReallocRun ⟨false, true⟩ true (fun a => decide (a ≠ 13))
          (Except.ok 7) (⟨[5, 13], 2⟩ : Vec Nat) 1).leaked
          = (if true = true then
              (match (Except.ok 7 : Except Unit Nat) with
               | Except.error _ => []
               | Except.ok x =>
                 if ∀ a ∈ ([5, 13] : List Nat).take 1, (fun a => decide (a ≠ 13)) a = true
                 then ([5, 13] : List Nat).take 1 ++ [x]
                 else [x])
            else []))) :=
  ⟨by decide,
   realloc_failure_recovery ⟨false, true⟩ true (fun a => decide (a ≠ 13))
     (Except.ok 7) ⟨[5, 13], 2⟩ 5 1 (by decide)⟩

/-- C2, evaluation at the failing input: in-place `Emplace` at offset 0 of
`[5]` (capacity 2) where the staged-temporary construction throws.  The
array is indeed left unchanged and the exception propagates, but the catch
handler first executes `operator delete (end())` — the pointer at offset
`size_ = 1` from the buffer base, which is an interior pointer never
returned by the allocator (and at `size_ = 0` it would be the still-owned
buffer itself, later freed again by the destructor), so the handler
corrupts the heap instead of being the claimed clean propagation. -/
theorem emplace_inplace_catch_bad_delete :
    (emplaceInPlaceRun false (7 : Nat) ⟨[5], 2⟩ 0).ok = false ∧
    (emplaceInPlaceRun false (7 : Nat) ⟨[5], 2⟩ 0).vec = ⟨[5], 2⟩ ∧
    (emplaceInPlaceRun false (7 : Nat) ⟨[5], 2⟩ 0).deletedOffset = some 1 ∧
    deleteCallFaults 2 1 = true := by
  decide

/-- C8: at all three relocation sites — `Reserve`, the growth path of
`EmplaceBack`, and `InsertAndReallocate` — whenever relocation executes it
is by move construction exactly when `T`'s move constructor cannot throw
or `T` is not copy-constructible, and by copy construction otherwise, and
the three sites' compile-time dispatch conditions are literally the same
predicate on the traits. -/
theorem relocation_dispatch_uniform (tr : Traits) (allocOk : Bool)
    (cok : α → Bool) (x : α) (v : Vec α) (newCapacity off : Nat) :
    (v.cap < newCapacity → allocOk = true →
      (reserveRun tr allocOk cok v newCapacity).relocKind
        = some (tr.nothrowMove || !tr.copyConstructible)) ∧
    (v.data.length = v.cap → allocOk = true →
      (emplaceBackRun tr allocOk cok (Except.ok x) v).relocKind
        = some (tr.nothrowMove || !tr.copyConstructible)) ∧
    (allocOk = true →
      (insertReallocRun tr allocOk cok (Except.ok x) v off).relocKind
        = some (tr.nothrowMove || !tr.copyConstructible)) ∧
    reserveRelocByMove tr = (tr.nothrowMove || !tr.copyConstructible) ∧
    emplaceBackRelocByMove tr = (tr.nothrowMove || !tr.copyConstructible) ∧
    insertReallocRelocByMove tr = (tr.nothrowMove || !tr.copyConstructible) := by
  refine ⟨fun hcap halloc => ?_, fun hsz halloc => ?_, fun halloc => ?_, rfl, rfl, rfl⟩
  · unfold reserveRun
    rw [if_neg (by omega), if_neg (by simp [halloc])]
    dsimp only
    by_cases hm : reserveRelocByMove tr
    · rw [if_pos hm]
      unfold reserveRelocByMove at hm
      rw [hm]
    · rw [if_neg hm]
      unfold reserveRelocByMove at hm
      rw [Bool.not_eq_true] at hm
      rw [hm]
      split <;> rfl
  · unfold emplaceBackRun
    rw [if_pos hsz, if_neg (by simp [halloc])]
    dsimp only
    by_cases hm : emplaceBackRelocByMove tr
    · rw [if_pos hm]
      unfold emplaceBackRelocByMove at hm
      rw [hm]
    · rw [if_neg hm]
      unfold emplaceBackRelocByMove at hm
      rw [Bool.not_eq_true] at hm
      rw [hm]
      split <;> rfl
  · unfold insertReallocRun
    rw [if_neg (by simp [halloc])]
    dsimp only
    by_cases hm : insertReallocRelocByMove tr
    · rw [if_pos hm]
      unfold insertReallocRelocByMove at hm
      rw [hm]
    · rw [if_neg hm]
      unfold insertReallocRelocByMove at hm
      rw [Bool.not_eq_true] at hm
      rw [hm]
      split
      · rfl
      · split <;> rfl

/-- C8, witness: with a copy-constructible, throwing-move type the
relocation in `Reserve` is by copy; with a nothrow-move type the growth
relocation in `EmplaceBack` is by move; with a move-only type (not
copy-constructible) the relocation in `InsertAndReallocate` is by move. -/
theorem relocation_dispatch_uniform_witness :
    ((⟨[1], 1⟩ : Vec Nat).cap < 3 ∧
      (reserveRun ⟨false, true⟩ true (fun _ => true) (⟨[1], 1⟩ : Vec Nat) 3).relocKind
        = some false) ∧
    ((⟨[1], 1⟩ : Vec Nat).data.length = (⟨[1], 1⟩ : Vec Nat).cap ∧
      (emplaceBackRun ⟨true, true⟩ true (fun _ => true) (Except.ok 5)
          (⟨[1], 1⟩ : Vec Nat)).relocKind = some true) ∧
    (insertReallocRun ⟨false, false⟩ true (fun _ => true) (Except.ok 5)
        (⟨[1], 1⟩ : Vec Nat) 0).relocKind = some true :=
  ⟨⟨by decide, by
      simpa using
        (relocation_dispatch_uniform ⟨false, true⟩ true (fun _ => true) 5
          (⟨[1], 1⟩ : Vec Nat) 3 0).1 (by decide) rfl⟩,
   ⟨rfl, by
      simpa using
        (relocation_dispatch_uniform ⟨true, true⟩ true (fun _ => true) 5
          (⟨[1], 1⟩ : Vec Nat) 3 0).2.1 rfl rfl⟩,
   by
      simpa using
        (relocation_dispatch_uniform ⟨false, false⟩ true (fun _ => true) 5
          (⟨[1], 1⟩ : Vec Nat) 3 0).2.2.1 rfl⟩

/-- C9: self-assignment in both the copy form (`this == &rhs` test in
`operator=(const Vector&)`) and the move form (`operator=(Vector&&)`), and
self-swap, are detected and leave the array's size, capacity, and elements
exactly as before. -/
theorem self_assignment_is_noop (v : Vec α) :
    copyAssignRun true v v = v ∧
    moveAssignRun true v v = (v, v) ∧
    swapRun true v v = (v, v) :=
  ⟨rfl, rfl, rfl⟩

/-- C10: the copy constructor produces an array with the source's elements
in order, equal size, and capacity exactly equal to the source's size —
spare capacity of the source is not carried over. -/
theorem copy_constructor_trims_capacity (v : Vec α) :
    (copyConstruct v).data = v.data ∧
    (copyConstruct v).size = v.size ∧
    (copyConstruct v).cap = v.size := by
  refine ⟨copyNFrom_zero_length v.data, ?_, rfl⟩
  show (copyConstruct v).data.length = v.data.length
  exact congrArg List.length (copyNFrom_zero_length v.data)

end AdvancedVector
